import Mathlib

/-!
Shallow embedding of `crates/project/src/search.rs` (project-wide text
search query engine).  Text is modelled as `List Char`; offsets count
characters of that list.  The external regex engine (the `regex` crate)
is modelled abstractly as a function producing the non-overlapping match
list of a haystack; the external glob engine (the `globset` crate) is
modelled concretely for the syntax this module's claims exercise
(literals, `?`, `*`, and `[...]` character classes).
-/

/-! ## Generic string helpers -/

/-- Prepend a character onto the first segment of a split result. -/
def consHead (c : Char) : List (List Char) → List (List Char)
  | [] => [[c]]
  | s :: ss => (c :: s) :: ss

/-- Model of Rust `str::split(sep)`: split a character list at every
occurrence of `sep`;  always returns at least one (possibly empty) segment. -/
def splitOnChar (sep : Char) : List Char → List (List Char)
  | [] => [[]]
  | c :: rest =>
    if c = sep then [] :: splitOnChar sep rest
    else consHead c (splitOnChar sep rest)

/-- Model of Rust `str::trim`: drop whitespace from both ends. -/
def trimStr (s : List Char) : List Char :=
  ((s.dropWhile Char.isWhitespace).reverse.dropWhile Char.isWhitespace).reverse

/-- Model of Rust `[str]::join(sep)` for a single-character separator. -/
def joinSep (sep : Char) : List (List Char) → List Char
  | [] => []
  | [x] => x
  | x :: y :: rest => x ++ sep :: joinSep sep (y :: rest)

/-- Substring test for the two-character sequence `\n` (a backslash
followed by the letter `n`), as in Rust `query.contains("\\n")`. -/
def hasEscapedNewline : List Char → Bool
  | '\\' :: 'n' :: _ => true
  | _ :: rest => hasEscapedNewline rest
  | [] => false

/-! ## Model of the `globset` crate

`Glob::new` (syntax check) and `GlobMatcher::is_match`, restricted to the
glob constructs exercised here: literal characters, `?`, `*`, and
`[...]`/`[!...]` character classes with ranges.  Parsing fails on an
unterminated or empty character class, as `globset` does. -/

inductive GlobToken where
  | lit (c : Char)
  | anyChar
  | anySeq
  | charClass (negated : Bool) (items : List (Char × Char))
deriving Repr, DecidableEq

/-- Parser state: outside any class, just after `[` (and optional `!`),
inside a class with accumulated range items and a possibly pending item
character, or just after `item-` awaiting a range end. -/
inductive GlobPState where
  | normal
  | clsStart (negated : Bool)
  | cls (negated : Bool) (items : List (Char × Char)) (pending : Option Char)
  | clsDash (negated : Bool) (items : List (Char × Char)) (p : Char)

/-- A pending class item becomes a degenerate range. -/
def pendItems : Option Char → List (Char × Char)
  | none => []
  | some p => [(p, p)]

/-- Character-by-character glob parser (model of `globset::Glob::new`'s
syntax analysis).  Returns `none` on malformed syntax. -/
def globParseAux : GlobPState → List GlobToken → List Char → Option (List GlobToken)
  | .normal, acc, [] => some acc.reverse
  | .clsStart _, _, [] => none
  | .cls _ _ _, _, [] => none
  | .clsDash _ _ _, _, [] => none
  | .normal, acc, c :: rest =>
    if c = '*' then globParseAux .normal (.anySeq :: acc) rest
    else if c = '?' then globParseAux .normal (.anyChar :: acc) rest
    else if c = '[' then globParseAux (.clsStart false) acc rest
    else globParseAux .normal (.lit c :: acc) rest
  | .clsStart neg, acc, c :: rest =>
    if c = '!' then
      if neg then globParseAux (.cls neg [] (some '!')) acc rest
      else globParseAux (.clsStart true) acc rest
    else if c = ']' then none
    else globParseAux (.cls neg [] (some c)) acc rest
  | .cls neg items pending, acc, c :: rest =>
    if c = ']' then
      globParseAux .normal (.charClass neg (items ++ pendItems pending) :: acc) rest
    else if c = '-' then
      match pending with
      | some p => globParseAux (.clsDash neg items p) acc rest
      | none => globParseAux (.cls neg items (some '-')) acc rest
    else globParseAux (.cls neg (items ++ pendItems pending) (some c)) acc rest
  | .clsDash neg items p, acc, c :: rest =>
    if c = ']' then
      globParseAux .normal (.charClass neg (items ++ [(p, p), ('-', '-')]) :: acc) rest
    else globParseAux (.cls neg (items ++ [(p, c)]) none) acc rest

/-- Model of `globset::Glob::new`: `some tokens` on well-formed syntax,
`none` (the `GlobSyntaxError` case) otherwise. -/
def globParse (pattern : List Char) : Option (List GlobToken) :=
  globParseAux .normal [] pattern

/-- Whether a non-`anySeq` token matches one character.  With `globset`'s
default options the separator `/` is not special, so `?` and classes may
match it. -/
def GlobToken.matchesChar : GlobToken → Char → Bool
  | .lit a, c => a == c
  | .anyChar, _ => true
  | .anySeq, _ => true
  | .charClass neg items, c =>
    let inside := items.any fun r => decide (r.1 ≤ c) && decide (c ≤ r.2)
    if neg then !inside else inside

/-- Fuelled glob matcher; `*` may absorb any (possibly empty) character
sequence, `/` included (`globset` default options).  Each step consumes
one unit of fuel and shrinks `tokens`-plus-`s`, so the fuel supplied by
`globMatch` is never exhausted. -/
def globMatchFuel : Nat → List GlobToken → List Char → Bool
  | 0, _, _ => false
  | _ + 1, [], s => s.isEmpty
  | n + 1, .anySeq :: ts, s =>
    globMatchFuel n ts s ||
      (match s with
       | [] => false
       | _ :: s2 => globMatchFuel n (.anySeq :: ts) s2)
  | n + 1, t :: ts, c :: s => t.matchesChar c && globMatchFuel n ts s
  | _ + 1, _ :: _, [] => false

/-- Model of `globset::GlobMatcher::is_match`. -/
def globMatch (ts : List GlobToken) (s : List Char) : Bool :=
  globMatchFuel (ts.length + s.length + 1) ts s

/-! ## PathMatcher -/

/-- `PathMatcher`: one include/exclude pattern, kept both as a literal
path and as a compiled glob (`search.rs`, lines 52-56). -/
structure PathMatcher where
  maybe_path : List Char
  glob : List GlobToken
deriving Repr, DecidableEq

/-- `PathMatcher::new` (`search.rs`, lines 65-70): fails exactly when the
glob syntax is malformed. -/
def PathMatcher.new (maybe_glob : List Char) : Option PathMatcher :=
  (globParse maybe_glob).map fun g => { glob := g, maybe_path := maybe_glob }

/-- Model of Rust `Path` components: split at `/` and drop empty segments. -/
def pathComponents (p : List Char) : List (List Char) :=
  (splitOnChar '/' p).filter fun s => !s.isEmpty

/-- Model of Rust `Path::starts_with`: component-wise prefix. -/
def startsWithPath (path pat : List Char) : Bool :=
  (pathComponents pat).isPrefixOf (pathComponents path)

/-- `PathMatcher::is_match` (`search.rs`, lines 72-74). -/
def PathMatcher.is_match (m : PathMatcher) (other : List Char) : Bool :=
  startsWithPath other m.maybe_path || globMatch m.glob other

/-! ## Character classification -/

/-- Three-way character classification used by whole-word filtering. -/
inductive CharKind where
  | whitespace
  | punctuation
  | word
deriving Repr, DecidableEq

/-- Modelled from the spec: `language::char_kind` is not under `src/`;
the spec prescribes a three-way classification
{word, punctuation-like, whitespace-like} — whitespace characters are
whitespace-like, alphanumerics and `_` are word characters, and
everything else is punctuation-like. -/
def char_kind (c : Char) : CharKind :=
  if c.isWhitespace then .whitespace
  else if c.isAlphanum || c = '_' then .word
  else .punctuation

/-! ## Model of the `aho_corasick` crate (single pattern)

The module always builds the automaton over exactly one pattern
(`build(&[&query])`), so the model keeps that single pattern plus the
`ascii_case_insensitive` configuration and realizes `find_iter` /
`stream_find_iter` as the leftmost, non-overlapping occurrence scan. -/

structure AhoCorasick where
  pattern : List Char
  ascii_case_insensitive : Bool

/-- ASCII case folding applied when `ascii_case_insensitive` is set
(`Char.toLower` lowers exactly the ASCII range). -/
def asciiFold (ci : Bool) (s : List Char) : List Char :=
  if ci then s.map Char.toLower else s

/-- Leftmost non-overlapping occurrences of `pat` in the remaining text,
with `i` the absolute offset of the head and `skip` the number of
positions still covered by the previous match. -/
def occAux (pat : List Char) : List Char → Nat → Nat → List (Nat × Nat)
  | [], i, skip => if skip = 0 && pat.isEmpty then [(i, i)] else []
  | c :: rest, i, skip =>
    if skip ≠ 0 then occAux pat rest (i + 1) (skip - 1)
    else if pat.isPrefixOf (c :: rest) then
      (i, i + pat.length) :: occAux pat rest (i + 1) (pat.length - 1)
    else occAux pat rest (i + 1) 0

/-- `AhoCorasick::find_iter` / `stream_find_iter` over an in-memory
haystack: every match is a `[start, end)` offset pair. -/
def AhoCorasick.findIter (a : AhoCorasick) (haystack : List Char) : List (Nat × Nat) :=
  occAux (asciiFold a.ascii_case_insensitive a.pattern)
    (asciiFold a.ascii_case_insensitive haystack) 0 0

/-! ## Model of the `regex` crate

The engine itself is external; a compiled regex is modelled extensionally
by its `find_iter` behaviour (the ordered non-overlapping match list of a
haystack), and `find(..).is_some()` is its non-emptiness.  Compilation
(`RegexBuilder::new(..).case_insensitive(..).multi_line(..).build()`) is
an abstract parameter of the query compiler. -/

structure Regex where
  findIter : List Char → List (Nat × Nat)

/-- `regex.find(s).is_some()`. -/
def Regex.findIsSome (r : Regex) (s : List Char) : Bool :=
  !(r.findIter s).isEmpty

/-- Abstract model of `RegexBuilder`: pattern, `case_insensitive` flag,
`multi_line` flag; `none` models a `PatternError` from `build()`. -/
def RegexCompiler : Type :=
  List Char → Bool → Bool → Option Regex

/-! ## SearchInputs and SearchQuery -/

/-- `SearchInputs` (`search.rs`, lines 16-21). -/
structure SearchInputs where
  query : List Char
  files_to_include : List PathMatcher
  files_to_exclude : List PathMatcher

def SearchInputs.as_str (i : SearchInputs) : List Char := i.query

/-- `SearchQuery` (`search.rs`, lines 34-50). -/
inductive SearchQuery where
  | Text (search : AhoCorasick) (whole_word case_sensitive : Bool) (inner : SearchInputs)
  | Regex (regex : Regex) (multiline whole_word case_sensitive : Bool)
      (inner : SearchInputs)

/-- `SearchQuery::text` (`search.rs`, lines 78-101). -/
def SearchQuery.text (query : List Char) (whole_word case_sensitive : Bool)
    (files_to_include files_to_exclude : List PathMatcher) : SearchQuery :=
  let search : AhoCorasick :=
    { pattern := query, ascii_case_insensitive := !case_sensitive }
  .Text search whole_word case_sensitive
    { query := query, files_to_include := files_to_include,
      files_to_exclude := files_to_exclude }

/-- `SearchQuery::regex` (`search.rs`, lines 103-137), parameterized by
the abstract regex compiler. -/
def SearchQuery.regex (compile : RegexCompiler) (query : List Char)
    (whole_word case_sensitive : Bool)
    (files_to_include files_to_exclude : List PathMatcher) : Option SearchQuery :=
  let initial_query := query
  let query := if whole_word then ['\\', 'b'] ++ query ++ ['\\', 'b'] else query
  let multiline := query.contains '\n' || hasEscapedNewline query
  match compile query (!case_sensitive) multiline with
  | none => none
  | some r =>
    some (.Regex r multiline whole_word case_sensitive
      { query := initial_query, files_to_include := files_to_include,
        files_to_exclude := files_to_exclude })

def SearchQuery.as_inner : SearchQuery → SearchInputs
  | .Text _ _ _ inner => inner
  | .Regex _ _ _ _ inner => inner

/-- `SearchQuery::as_str` (`search.rs`, lines 290-292). -/
def SearchQuery.as_str (q : SearchQuery) : List Char :=
  q.as_inner.as_str

def SearchQuery.whole_word : SearchQuery → Bool
  | .Text _ ww _ _ => ww
  | .Regex _ _ ww _ _ => ww

def SearchQuery.case_sensitive : SearchQuery → Bool
  | .Text _ _ cs _ => cs
  | .Regex _ _ _ cs _ => cs

def SearchQuery.is_regex : SearchQuery → Bool
  | .Text _ _ _ _ => false
  | .Regex _ _ _ _ _ => true

/-- The `multiline` field, present only on the `Regex` variant. -/
def SearchQuery.multilineFlag : SearchQuery → Option Bool
  | .Text _ _ _ _ => none
  | .Regex _ multiline _ _ _ => some multiline

def SearchQuery.files_to_include (q : SearchQuery) : List PathMatcher :=
  q.as_inner.files_to_include

def SearchQuery.files_to_exclude (q : SearchQuery) : List PathMatcher :=
  q.as_inner.files_to_exclude

/-- `SearchQuery::file_matches` (`search.rs`, lines 320-335). -/
def SearchQuery.file_matches (q : SearchQuery) (file_path : Option (List Char)) : Bool :=
  match file_path with
  | some file_path =>
    !(q.files_to_exclude.any fun exclude_glob => exclude_glob.is_match file_path) &&
      (q.files_to_include.isEmpty ||
        q.files_to_include.any fun include_glob => include_glob.is_match file_path)
  | none => q.files_to_include.isEmpty

/-! ## Byte streams and `detect` -/

/-- Model of a `Read` value handed to `detect`: the reader yields
`content` and afterwards either signals end-of-input (`err = none`) or
fails with an I/O error carrying `err = some e`. -/
structure ReadStream where
  content : List Char
  err : Option Nat

/-- `BufRead::lines` strips the terminating newline and a carriage
return directly before it. -/
def stripCr (l : List Char) : List Char :=
  if l.getLast? = some '\r' then l.dropLast else l

/-- The item sequence produced by `BufReader::lines` on a `ReadStream`:
every newline-terminated line is yielded (newline and a preceding
carriage return removed); the trailing segment is yielded when non-empty
and the stream ends cleanly, and produces the I/O error otherwise. -/
def linesResults (s : ReadStream) : List (Except Nat (List Char)) :=
  let segs := splitOnChar '\n' s.content
  let complete : List (Except Nat (List Char)) :=
    (segs.dropLast.map stripCr).map Except.ok
  match s.err with
  | some e => complete ++ [.error e]
  | none =>
    match segs.getLast? with
    | some last => if last.isEmpty then complete else complete ++ [.ok last]
    | none => complete

/-- The `for line in reader.lines()` loop of `detect`
(`search.rs`, lines 205-211): propagate the first error, return `true`
at the first matching line. -/
def detectLineLoop (regex : Regex) : List (Except Nat (List Char)) → Except Nat Bool
  | [] => .ok false
  | .error e :: _ => .error e
  | .ok line :: rest =>
    if regex.findIsSome line then .ok true else detectLineLoop regex rest

/-- `SearchQuery::detect` (`search.rs`, lines 179-215).  In the literal
arm, `stream_find_iter(stream).next()` finds a match inside the readable
content before the reader can fail, so a match yields `Ok(true)`, an
error is reported only when no match precedes it. -/
def SearchQuery.detect (q : SearchQuery) (stream : ReadStream) : Except Nat Bool :=
  if q.as_str.isEmpty then .ok false
  else
    match q with
    | .Text search _ _ _ =>
      if !(search.findIter stream.content).isEmpty then .ok true
      else
        match stream.err with
        | some e => .error e
        | none => .ok false
    | .Regex regex multiline _ _ _ =>
      if multiline then
        match stream.err with
        | some e => .error e
        | none => .ok (regex.findIsSome stream.content)
      else detectLineLoop regex (linesResults stream)

/-! ## Ropes and `search` -/

/-- A `language::Rope` is modelled by its chunk sequence; all the
iteration facilities `search` needs (`chunks`, `bytes_in_range` over the
full range, `to_string`, character lookups) derive from it. -/
def Rope := List (List Char)

def Rope.chunks (r : Rope) : List (List Char) := r

def Rope.to_string (r : Rope) : List Char := List.flatten r

/-- State of the single-line regex scan (`search.rs`, lines 263-283):
the `matches` list accumulated so far (named `matchesList`, since
`matches` is a Lean keyword), the current accumulated line, and the
absolute offset of that line's first character. -/
structure ScanState where
  matchesList : List (Nat × Nat)
  line : List Char
  line_offset : Nat

/-- Flush the accumulated line: record its matches translated by the
line's absolute offset, then advance past the line and its newline. -/
def flushLine (regex : Regex) (st : ScanState) : ScanState :=
  { matchesList := st.matchesList ++ (regex.findIter st.line).map
      (fun mat => (st.line_offset + mat.1, st.line_offset + mat.2)),
    line := [],
    line_offset := st.line_offset + st.line.length + 1 }

/-- `line.push_str(text)`. -/
def pushSeg (st : ScanState) (text : List Char) : ScanState :=
  { st with line := st.line ++ text }

/-- The `for (newline_ix, text) in chunk.split('\n')` loop: the first
segment is appended to the line, every later segment is preceded by a
flush (`newline_ix > 0`). -/
def processSegs (regex : Regex) (st : ScanState) : List (List Char) → ScanState
  | [] => st
  | s :: rest =>
    rest.foldl (fun acc seg => pushSeg (flushLine regex acc) seg) (pushSeg st s)

def processChunk (regex : Regex) (st : ScanState) (chunk : List Char) : ScanState :=
  processSegs regex st (splitOnChar '\n' chunk)

/-- The single-line regex arm of `search` (`search.rs`, lines 262-284):
scan the chunks with a synthetic trailing newline chunk appended. -/
def searchRegexSingleline (regex : Regex) (chunks : List (List Char)) : List (Nat × Nat) :=
  ((chunks ++ [['\n']]).foldl (processChunk regex) ⟨[], [], 0⟩).matchesList

def kindAt (text : List Char) (i : Nat) : Option CharKind :=
  (text[i]?).map char_kind

/-- `rope.reversed_chars_at(i).next()`: the character just before offset
`i`, absent at the start of the buffer. -/
def kindBefore (text : List Char) (i : Nat) : Option CharKind :=
  if i = 0 then none else kindAt text (i - 1)

/-- The whole-word filter of the literal arm (`search.rs`, lines
238-246).  The source unwraps the kinds of the first and last matched
characters, which exist for every match of a non-empty pattern; here the
lookups are total options, and the comparison mirrors
`Some(start_kind) == prev_kind || Some(end_kind) == next_kind`. -/
def wholeWordOk (text : List Char) (mat : Nat × Nat) : Bool :=
  let prev_kind := kindBefore text mat.1
  let start_kind := kindAt text mat.1
  let end_kind := kindBefore text mat.2
  let next_kind := kindAt text mat.2
  if start_kind = prev_kind ∨ end_kind = next_kind then false else true

/-- `SearchQuery::search` (`search.rs`, lines 217-288).  The cooperative
`yield_now` suspensions are elided: they do not affect the returned
match list. -/
def SearchQuery.search (q : SearchQuery) (rope : Rope) : List (Nat × Nat) :=
  if q.as_str.isEmpty then []
  else
    match q with
    | .Text search whole_word _ _ =>
      let text := Rope.to_string rope
      (search.findIter text).filter fun mat =>
        if whole_word then wholeWordOk text mat else true
    | .Regex regex multiline _ _ _ =>
      if multiline then regex.findIter (Rope.to_string rope)
      else searchRegexSingleline regex (Rope.chunks rope)

/-! ## Wire form -/

namespace proto

/-- `client::proto::SearchProject`, the wire message (fields used by
this module). -/
structure SearchProject where
  project_id : Nat
  query : List Char
  regex : Bool
  whole_word : Bool
  case_sensitive : Bool
  files_to_include : List Char
  files_to_exclude : List Char
deriving Repr

end proto

/-- `SearchQuery::to_proto` (`search.rs`, lines 159-177); a matcher
displays as its original pattern string. -/
def SearchQuery.to_proto (q : SearchQuery) (project_id : Nat) : proto.SearchProject :=
  { project_id := project_id,
    query := q.as_str,
    regex := q.is_regex,
    whole_word := q.whole_word,
    case_sensitive := q.case_sensitive,
    files_to_include := joinSep ',' (q.files_to_include.map fun matcher => matcher.maybe_path),
    files_to_exclude := joinSep ',' (q.files_to_exclude.map fun matcher => matcher.maybe_path) }

/-- Collect matchers from the cleaned segments, failing with the first
segment whose glob does not compile (the error message of the source
names that segment). -/
def buildPathMatchers : List (List Char) → Except (List Char) (List PathMatcher)
  | [] => .ok []
  | g :: rest =>
    match PathMatcher.new g with
    | none => .error g
    | some m => (buildPathMatchers rest).map fun ms => m :: ms

/-- `deserialize_path_matches` (`search.rs`, lines 343-353): split on
commas, trim, drop empty segments, compile each. -/
def deserialize_path_matches (glob_set : List Char) : Except (List Char) (List PathMatcher) :=
  buildPathMatchers
    (((splitOnChar ',' glob_set).map trimStr).filter fun glob_str => !glob_str.isEmpty)

/-- Errors of `SearchQuery::from_proto`: a glob failure naming the
offending segment, or a regex `PatternError`. -/
inductive ProtoError where
  | globError (segment : List Char)
  | patternError
deriving Repr, DecidableEq

/-- `SearchQuery::from_proto` (`search.rs`, lines 139-157). -/
def SearchQuery.from_proto (compile : RegexCompiler) (message : proto.SearchProject) :
    Except ProtoError SearchQuery :=
  match deserialize_path_matches message.files_to_include with
  | .error g => .error (.globError g)
  | .ok inc =>
    match deserialize_path_matches message.files_to_exclude with
    | .error g => .error (.globError g)
    | .ok exc =>
      if message.regex then
        match SearchQuery.regex compile message.query message.whole_word
            message.case_sensitive inc exc with
        | none => .error .patternError
        | some q => .ok q
      else
        .ok (SearchQuery.text message.query message.whole_word
          message.case_sensitive inc exc)

/-! ## Theorems -/

/-- Claim C5: a query whose stored query string is empty searches to the
empty sequence and detects nothing, on any buffer and any stream. -/
theorem c5_empty_query (q : SearchQuery) (stream : ReadStream) (rope : Rope)
    (h : q.as_str = []) : q.search rope = [] ∧ q.detect stream = .ok false := by
  constructor
  · unfold SearchQuery.search
    simp [h]
  · unfold SearchQuery.detect
    simp [h]

/-- Witness for C5 at a concrete empty-string query. -/
theorem c5_empty_query_witness :
    (SearchQuery.text [] false false [] []).search [['a']] = [] ∧
      (SearchQuery.text [] false false [] []).detect ⟨['a'], none⟩ = .ok false :=
  c5_empty_query _ _ _ rfl

/-- Claim C4: for a successfully compiled regex query, the `multiline`
flag is true iff the effective pattern (whole-word-wrapped when
`whole_word` is set) contains a literal newline or the two-character
sequence backslash-`n`. -/
theorem c4_multiline_detection (compile : RegexCompiler) (query : List Char)
    (whole_word case_sensitive : Bool) (inc exc : List PathMatcher)
    (sq : SearchQuery)
    (h : SearchQuery.regex compile query whole_word case_sensitive inc exc = some sq) :
    sq.multilineFlag =
      some ((if whole_word then ['\\', 'b'] ++ query ++ ['\\', 'b'] else query).contains '\n' ||
        hasEscapedNewline
          (if whole_word then ['\\', 'b'] ++ query ++ ['\\', 'b'] else query)) := by
  simp only [SearchQuery.regex] at h
  split at h
  · exact Option.noConfusion h
  · obtain rfl := Option.some.inj h
    simp [SearchQuery.multilineFlag]

/-- Witness for C4: a pattern holding a literal newline compiles with
`multiline = true`. -/
theorem c4_multiline_detection_witness :
    (SearchQuery.Regex ⟨fun _ => []⟩ true false false
        ⟨['a', '\n'], [], []⟩).multilineFlag = some true := by
  have h := c4_multiline_detection (fun _ _ _ => some ⟨fun _ => []⟩) ['a', '\n']
    false false [] [] _ rfl
  simpa using h

/-- Claim C7: with `whole_word` set, the pattern handed to the regex
engine is the original query wrapped in `\b` on each side, while the
stored query string (`as_str`) is the original unwrapped string;
compilation failure of the wrapped pattern yields no query. -/
theorem c7_whole_word_wrapping (compile : RegexCompiler) (query : List Char)
    (case_sensitive : Bool) (inc exc : List PathMatcher) :
    (SearchQuery.regex compile query true case_sensitive inc exc =
      (compile (['\\', 'b'] ++ query ++ ['\\', 'b']) (!case_sensitive)
          ((['\\', 'b'] ++ query ++ ['\\', 'b']).contains '\n' ||
            hasEscapedNewline (['\\', 'b'] ++ query ++ ['\\', 'b']))).map
        (fun r => SearchQuery.Regex r
          ((['\\', 'b'] ++ query ++ ['\\', 'b']).contains '\n' ||
            hasEscapedNewline (['\\', 'b'] ++ query ++ ['\\', 'b']))
          true case_sensitive
          { query := query, files_to_include := inc, files_to_exclude := exc })) ∧
    (∀ sq, SearchQuery.regex compile query true case_sensitive inc exc = some sq →
      sq.as_str = query) := by
  constructor
  · simp only [SearchQuery.regex, if_true]
    split <;> rename_i heq <;> rw [heq] <;> rfl
  · intro sq h
    simp only [SearchQuery.regex] at h
    split at h
    · exact Option.noConfusion h
    · obtain rfl := Option.some.inj h
      rfl

/-- Witness for C7 at a concrete compiler and query. -/
theorem c7_whole_word_wrapping_witness :
    SearchQuery.as_str
        (SearchQuery.Regex ⟨fun _ => []⟩ false true true ⟨['x'], [], []⟩) = ['x'] :=
  (c7_whole_word_wrapping (fun _ _ _ => some ⟨fun _ => []⟩) ['x'] true [] []).2 _ rfl

/-- Claim C2: with a path, `file_matches` is true iff no exclude matcher
matches the path and the include list is empty or some include matcher
matches it; with no path, it is true iff the include list is empty. -/
theorem c2_file_matches (q : SearchQuery) (path : List Char) :
    (q.file_matches (some path) = true ↔
      ((∀ m ∈ q.files_to_exclude, m.is_match path = false) ∧
        (q.files_to_include = [] ∨ ∃ m ∈ q.files_to_include, m.is_match path = true))) ∧
    (q.file_matches none = true ↔ q.files_to_include = []) := by
  constructor
  · simp [SearchQuery.file_matches, List.any_eq_true, List.isEmpty_iff,
      Bool.not_eq_true]
  · simp [SearchQuery.file_matches, List.isEmpty_iff]

/-- Claim C9: `is_match` is the disjunction of literal-path-prefix and
glob match; `PathMatcher::new` fails exactly on malformed glob syntax,
e.g. it rejects the unterminated class `dir/[a-z.txt` while accepting
`dir/[a-z].txt`, whose matcher accepts `dir/a.txt`. -/
theorem c9_path_matcher :
    (∀ pat m, PathMatcher.new pat = some m →
      ∀ path, (m.is_match path = true ↔
        (startsWithPath path pat = true ∨ globMatch m.glob path = true))) ∧
    PathMatcher.new ("dir/[a-z.txt".toList) = none ∧
    (∃ m, PathMatcher.new ("dir/[a-z].txt".toList) = some m ∧
      m.is_match ("dir/a.txt".toList) = true) := by
  refine ⟨?_, by decide, ⟨_, rfl, by decide⟩⟩
  intro pat m hm path
  unfold PathMatcher.new at hm
  cases hg : globParse pat with
  | none => rw [hg] at hm; exact Option.noConfusion hm
  | some g =>
    rw [hg] at hm
    obtain rfl := Option.some.inj hm
    simp [PathMatcher.is_match]

/-- Witness for C9's general disjunction at a concrete matcher and path. -/
theorem c9_path_matcher_witness :
    PathMatcher.new ("src".toList) =
        some { maybe_path := "src".toList, glob := [.lit 's', .lit 'r', .lit 'c'] } ∧
      (PathMatcher.is_match
          { maybe_path := "src".toList, glob := [.lit 's', .lit 'r', .lit 'c'] }
          ("src/x.rs".toList) = true ↔
        (startsWithPath ("src/x.rs".toList) ("src".toList) = true ∨
          globMatch [.lit 's', .lit 'r', .lit 'c'] ("src/x.rs".toList) = true)) :=
  ⟨by decide, c9_path_matcher.1 _ _ (by decide) _⟩

/-- The source's skip condition
`Some(start_kind) == prev_kind || Some(end_kind) == next_kind` negated is
exactly: the class before the match differs from the class of its first
character, and the class after it differs from the class of its last
character (absent neighbours differ from any class). -/
theorem wholeWordOk_eq_boundary (text : List Char) (mat : Nat × Nat) :
    wholeWordOk text mat =
      decide (kindBefore text mat.1 ≠ kindAt text mat.1 ∧
        kindAt text mat.2 ≠ kindBefore text mat.2) := by
  simp only [wholeWordOk]
  by_cases h1 : kindAt text mat.1 = kindBefore text mat.1
  · rw [if_pos (Or.inl h1)]
    symm
    simp only [decide_eq_false_iff_not]
    intro hP
    exact hP.1 h1.symm
  · by_cases h2 : kindBefore text mat.2 = kindAt text mat.2
    · rw [if_pos (Or.inr h2)]
      symm
      simp only [decide_eq_false_iff_not]
      intro hP
      exact hP.2 h2.symm
    · rw [if_neg (by tauto)]
      symm
      simp only [decide_eq_true_eq]
      exact ⟨fun he => h1 he.symm, fun he => h2 he.symm⟩

/-- Claim C3: a whole-word literal search keeps a raw match exactly when
the class just before it differs from its first character's class and the
class just after it differs from its last character's class (buffer edges
count as boundaries); on `"cat catalog cat"` the query `"cat"` yields
exactly the ranges `[0,3)` and `[12,15)`. -/
theorem c3_whole_word_literal :
    (∀ (query : List Char) (case_sensitive : Bool) (inc exc : List PathMatcher)
        (rope : Rope), query ≠ [] →
      (SearchQuery.text query true case_sensitive inc exc).search rope =
        (AhoCorasick.findIter
            { pattern := query, ascii_case_insensitive := !case_sensitive }
            (Rope.to_string rope)).filter
          (fun mat =>
            decide (kindBefore (Rope.to_string rope) mat.1 ≠
                kindAt (Rope.to_string rope) mat.1 ∧
              kindAt (Rope.to_string rope) mat.2 ≠
                kindBefore (Rope.to_string rope) mat.2))) ∧
    (SearchQuery.text ("cat".toList) true true [] []).search
        ["cat catalog cat".toList] = [(0, 3), (12, 15)] := by
  constructor
  · intro query cs inc exc rope hne
    show (SearchQuery.Text ⟨query, !cs⟩ true cs ⟨query, inc, exc⟩).search rope = _
    unfold SearchQuery.search
    rw [if_neg (by simp [SearchQuery.as_str, SearchQuery.as_inner,
      SearchInputs.as_str, hne])]
    refine List.filter_congr fun mat _ => ?_
    simp only [if_true]
    exact wholeWordOk_eq_boundary _ mat
  · decide

/-- Witness for C3's general part at the `"cat catalog cat"` example. -/
theorem c3_whole_word_literal_witness :
    (SearchQuery.text ("cat".toList) true true [] []).search
        ["cat catalog cat".toList] =
      (AhoCorasick.findIter
          { pattern := "cat".toList, ascii_case_insensitive := !true }
          (Rope.to_string ["cat catalog cat".toList])).filter
        (fun mat =>
          decide (kindBefore (Rope.to_string ["cat catalog cat".toList]) mat.1 ≠
              kindAt (Rope.to_string ["cat catalog cat".toList]) mat.1 ∧
            kindAt (Rope.to_string ["cat catalog cat".toList]) mat.2 ≠
              kindBefore (Rope.to_string ["cat catalog cat".toList]) mat.2)) :=
  c3_whole_word_literal.1 ("cat".toList) true [] [] ["cat catalog cat".toList]
    (by decide)

/-- `str::split` never produces an empty segment list. -/
theorem splitOnChar_ne_nil (sep : Char) (l : List Char) : splitOnChar sep l ≠ [] := by
  cases l with
  | nil => simp [splitOnChar]
  | cons c rest =>
    simp only [splitOnChar]
    split
    · simp
    · cases splitOnChar sep rest <;> simp [consHead]

/-- The line loop over a block of successfully read lines returns true
as soon as one matches, and otherwise continues with the remaining
items. -/
theorem detectLineLoop_ok_block (r : Regex) (ls : List (List Char))
    (tail : List (Except Nat (List Char))) :
    detectLineLoop r (ls.map Except.ok ++ tail) =
      if ls.any (fun l => r.findIsSome l) then .ok true
      else detectLineLoop r tail := by
  induction ls with
  | nil => simp
  | cons l ls ih =>
    simp only [List.map_cons, List.cons_append, detectLineLoop, List.any_cons]
    by_cases h : r.findIsSome l = true
    · simp [h]
    · simp [h, ih]

/-- Full characterization of the single-line regex arm of `detect`:
return true if a completed line matches; otherwise propagate a pending
read error; otherwise test the unterminated final segment. -/
theorem detect_singleline_eq (r : Regex) (stream : ReadStream) :
    detectLineLoop r (linesResults stream) =
      if ((splitOnChar '\n' stream.content).dropLast.map stripCr).any
          (fun l => r.findIsSome l) then .ok true
      else
        match stream.err with
        | some e => .error e
        | none =>
          .ok (!((splitOnChar '\n' stream.content).getLast?.getD []).isEmpty &&
            r.findIsSome ((splitOnChar '\n' stream.content).getLast?.getD [])) := by
  simp only [linesResults]
  cases herr : stream.err with
  | some e =>
    rw [detectLineLoop_ok_block]
    rfl
  | none =>
    rw [List.getLast?_eq_getLast _ (splitOnChar_ne_nil '\n' stream.content)]
    dsimp only [Option.getD_some]
    by_cases hle : ((splitOnChar '\n' stream.content).getLast
        (splitOnChar_ne_nil '\n' stream.content)).isEmpty = true
    · rw [if_pos hle]
      have h0 := detectLineLoop_ok_block r
        ((splitOnChar '\n' stream.content).dropLast.map stripCr) []
      rw [List.append_nil] at h0
      rw [h0]
      simp [detectLineLoop, hle]
    · rw [if_neg hle]
      rw [detectLineLoop_ok_block]
      have hle2 : ((splitOnChar '\n' stream.content).getLast
          (splitOnChar_ne_nil '\n' stream.content)).isEmpty = false := by
        cases h : ((splitOnChar '\n' stream.content).getLast
            (splitOnChar_ne_nil '\n' stream.content)).isEmpty
        · rfl
        · exact absurd h hle
      by_cases hany : ((splitOnChar '\n' stream.content).dropLast.map stripCr).any
          (fun l => r.findIsSome l) = true
      · rw [if_pos hany, if_pos hany]
      · rw [if_neg hany, if_neg hany]
        cases hf : r.findIsSome ((splitOnChar '\n' stream.content).getLast
            (splitOnChar_ne_nil '\n' stream.content)) <;>
          simp [detectLineLoop, hf, hle2]

/-- Claim C6: for a non-empty query, `detect` reports whether a match
exists and otherwise propagates the stream's read error.  Literal mode
scans incrementally (a match anywhere in the readable content yields
true, an error is reported only when no match precedes it); multiline
regex mode buffers the whole stream, so a read error or the single test
of the buffered content decides the result; single-line regex mode tests
completed lines in order, returns true at the first matching line,
propagates the error when no completed line matched, and otherwise tests
the unterminated final segment. -/
theorem c6_detect (stream : ReadStream) :
    (∀ (a : AhoCorasick) (ww cs : Bool) (inner : SearchInputs), inner.query ≠ [] →
      ((a.findIter stream.content ≠ [] →
          (SearchQuery.Text a ww cs inner).detect stream = .ok true) ∧
        (stream.err = none →
          (SearchQuery.Text a ww cs inner).detect stream =
            .ok (!(a.findIter stream.content).isEmpty)) ∧
        (∀ e, stream.err = some e → a.findIter stream.content = [] →
          (SearchQuery.Text a ww cs inner).detect stream = .error e))) ∧
    (∀ (r : Regex) (ww cs : Bool) (inner : SearchInputs), inner.query ≠ [] →
      ((stream.err = none →
          (SearchQuery.Regex r true ww cs inner).detect stream =
            .ok (r.findIsSome stream.content)) ∧
        (∀ e, stream.err = some e →
          (SearchQuery.Regex r true ww cs inner).detect stream = .error e))) ∧
    (∀ (r : Regex) (ww cs : Bool) (inner : SearchInputs), inner.query ≠ [] →
      ((((splitOnChar '\n' stream.content).dropLast.map stripCr).any
            (fun l => r.findIsSome l) = true →
          (SearchQuery.Regex r false ww cs inner).detect stream = .ok true) ∧
        (stream.err = none →
          (SearchQuery.Regex r false ww cs inner).detect stream =
            .ok ((((splitOnChar '\n' stream.content).dropLast.map stripCr).any
                (fun l => r.findIsSome l)) ||
              (!((splitOnChar '\n' stream.content).getLast?.getD []).isEmpty &&
                r.findIsSome ((splitOnChar '\n' stream.content).getLast?.getD [])))) ∧
        (∀ e, stream.err = some e →
          ((splitOnChar '\n' stream.content).dropLast.map stripCr).any
              (fun l => r.findIsSome l) = false →
          (SearchQuery.Regex r false ww cs inner).detect stream = .error e))) := by
  refine ⟨?_, ?_, ?_⟩
  · intro a ww cs inner hne
    refine ⟨?_, ?_, ?_⟩
    · intro hm
      unfold SearchQuery.detect
      rw [if_neg (by simp [SearchQuery.as_str, SearchQuery.as_inner,
        SearchInputs.as_str, hne])]
      dsimp only
      simp [hm]
    · intro herr
      unfold SearchQuery.detect
      rw [if_neg (by simp [SearchQuery.as_str, SearchQuery.as_inner,
        SearchInputs.as_str, hne])]
      dsimp only
      cases hi : (a.findIter stream.content).isEmpty
      · simp [hi]
      · simp [hi, herr]
    · intro e herr hm
      unfold SearchQuery.detect
      rw [if_neg (by simp [SearchQuery.as_str, SearchQuery.as_inner,
        SearchInputs.as_str, hne])]
      dsimp only
      simp [hm, herr]
  · intro r ww cs inner hne
    constructor
    · intro herr
      unfold SearchQuery.detect
      rw [if_neg (by simp [SearchQuery.as_str, SearchQuery.as_inner,
        SearchInputs.as_str, hne])]
      dsimp only
      simp [herr]
    · intro e herr
      unfold SearchQuery.detect
      rw [if_neg (by simp [SearchQuery.as_str, SearchQuery.as_inner,
        SearchInputs.as_str, hne])]
      dsimp only
      simp [herr]
  · intro r ww cs inner hne
    have hdet : (SearchQuery.Regex r false ww cs inner).detect stream =
        detectLineLoop r (linesResults stream) := by
      unfold SearchQuery.detect
      rw [if_neg (by simp [SearchQuery.as_str, SearchQuery.as_inner,
        SearchInputs.as_str, hne])]
      rfl
    refine ⟨?_, ?_, ?_⟩
    · intro hany
      rw [hdet, detect_singleline_eq, if_pos hany]
    · intro herr
      rw [hdet, detect_singleline_eq]
      by_cases hany : ((splitOnChar '\n' stream.content).dropLast.map stripCr).any
          (fun l => r.findIsSome l) = true
      · rw [if_pos hany, hany, Bool.true_or]
      · have hany2 : ((splitOnChar '\n' stream.content).dropLast.map stripCr).any
            (fun l => r.findIsSome l) = false := by
          cases h : ((splitOnChar '\n' stream.content).dropLast.map stripCr).any
              (fun l => r.findIsSome l)
          · rfl
          · exact absurd h hany
        rw [if_neg hany, herr]
        dsimp only
        rw [hany2, Bool.false_or]
    · intro e herr hany
      rw [hdet, detect_singleline_eq, if_neg (by rw [hany]; simp), herr]

/-- Witness for C6 at a concrete multiline regex query and stream. -/
theorem c6_detect_witness :
    (SearchQuery.Regex ⟨fun _ => []⟩ true false false ⟨['q'], [], []⟩).detect
        ⟨"x".toList, none⟩ = .ok (Regex.findIsSome ⟨fun _ => []⟩ ("x".toList)) :=
  ((c6_detect ⟨"x".toList, none⟩).2.1 ⟨fun _ => []⟩ false false ⟨['q'], [], []⟩
    (by decide)).1 rfl

/-! ## The single-line scan, character by character

Splitting a chunk at newlines and flushing between segments is the same
as consuming the chunk one character at a time, flushing at `'\n'`. -/

/-- One character of the scan: a newline flushes the line, anything else
is appended to it. -/
def stepChar (regex : Regex) (st : ScanState) (c : Char) : ScanState :=
  if c = '\n' then flushLine regex st else pushSeg st [c]

/-- Matches of a list of lines, translated by the cumulative length of
all previous lines plus their newline separators. -/
def lineMatchesFrom (regex : Regex) : List (List Char) → Nat → List (Nat × Nat)
  | [], _ => []
  | l :: ls, off =>
    (regex.findIter l).map (fun m => (off + m.1, off + m.2)) ++
      lineMatchesFrom regex ls (off + l.length + 1)

theorem pushSeg_nil (st : ScanState) : pushSeg st [] = st := by
  simp [pushSeg]

theorem pushSeg_append (st : ScanState) (a b : List Char) :
    pushSeg st (a ++ b) = pushSeg (pushSeg st a) b := by
  simp [pushSeg]

/-- Processing a chunk is a left fold of `stepChar` over its characters. -/
theorem processChunk_eq_foldl (regex : Regex) (chunk : List Char) :
    ∀ st : ScanState, processChunk regex st chunk = chunk.foldl (stepChar regex) st := by
  induction chunk with
  | nil =>
    intro st
    simp [processChunk, splitOnChar, processSegs, pushSeg_nil]
  | cons c rest ih =>
    intro st
    obtain ⟨s, ss, hss⟩ : ∃ s ss, splitOnChar '\n' rest = s :: ss := by
      cases h : splitOnChar '\n' rest with
      | nil => exact absurd h (splitOnChar_ne_nil _ _)
      | cons s ss => exact ⟨s, ss, rfl⟩
    by_cases hc : c = '\n'
    · subst hc
      have h1 : splitOnChar '\n' ('\n' :: rest) = [] :: splitOnChar '\n' rest := by
        simp [splitOnChar]
      unfold processChunk
      rw [h1, List.foldl_cons]
      have hstep : stepChar regex st '\n' = flushLine regex st := by simp [stepChar]
      rw [hstep, ← ih (flushLine regex st)]
      unfold processChunk
      rw [hss]
      simp [processSegs, pushSeg_nil]
    · have h1 : splitOnChar '\n' (c :: rest) = consHead c (splitOnChar '\n' rest) := by
        simp [splitOnChar, hc]
      unfold processChunk
      rw [h1, List.foldl_cons]
      have hstep : stepChar regex st c = pushSeg st [c] := by simp [stepChar, hc]
      rw [hstep, ← ih (pushSeg st [c])]
      unfold processChunk
      rw [hss]
      show processSegs regex st ((c :: s) :: ss) = _
      have h2 : pushSeg st (c :: s) = pushSeg (pushSeg st [c]) s := by
        rw [← List.singleton_append]
        exact pushSeg_append st [c] s
      simp [processSegs, h2]

/-- Chunk processing respects concatenation. -/
theorem processChunk_append (regex : Regex) (st : ScanState) (a b : List Char) :
    processChunk regex st (a ++ b) = processChunk regex (processChunk regex st a) b := by
  simp [processChunk_eq_foldl, List.foldl_append]

/-- Folding the chunk processor over a chunk list only depends on the
concatenated text. -/
theorem foldl_processChunk_flatten (regex : Regex) (chunks : List (List Char)) :
    ∀ st, chunks.foldl (processChunk regex) st = processChunk regex st chunks.flatten := by
  induction chunks with
  | nil => intro st; simp [processChunk_eq_foldl]
  | cons c cs ih =>
    intro st
    simp only [List.foldl_cons, List.flatten_cons]
    rw [ih, processChunk_append]

/-- A separator-free string splits into itself. -/
theorem splitOnChar_not_mem (sep : Char) (l : List Char) (h : l.contains sep = false) :
    splitOnChar sep l = [l] := by
  induction l with
  | nil => rfl
  | cons c rest ih =>
    rw [List.contains_cons] at h
    have hc : ¬c = sep := by
      intro he
      subst he
      simp at h
    have hrest : rest.contains sep = false := by
      cases hx : rest.contains sep
      · rfl
      · rw [hx] at h; simp at h
    simp [splitOnChar, hc, ih hrest, consHead]

/-- Concatenation distributes over `contains`. -/
theorem contains_append_char (a b : List Char) (x : Char) :
    (a ++ b).contains x = (a.contains x || b.contains x) := by
  induction a with
  | nil => simp
  | cons c a ih => simp [List.contains_cons, ih, Bool.or_assoc]

/-- Splitting around an explicit separator occurrence. -/
theorem splitOnChar_append_cons (sep : Char) (l t : List Char)
    (h : l.contains sep = false) :
    splitOnChar sep (l ++ sep :: t) = l :: splitOnChar sep t := by
  induction l with
  | nil => simp [splitOnChar]
  | cons c rest ih =>
    rw [List.contains_cons] at h
    have hc : ¬c = sep := by
      intro he
      subst he
      simp at h
    have hrest : rest.contains sep = false := by
      cases hx : rest.contains sep
      · rfl
      · rw [hx] at h; simp at h
    simp only [List.cons_append, splitOnChar, if_neg hc, List.append_eq, ih hrest,
      consHead]

/-- A trailing separator contributes a final empty segment. -/
theorem splitOnChar_concat_sep (sep : Char) (t : List Char) :
    splitOnChar sep (t ++ [sep]) = splitOnChar sep t ++ [[]] := by
  induction t with
  | nil => simp [splitOnChar]
  | cons c rest ih =>
    by_cases hc : c = sep
    · subst hc
      simp [splitOnChar, ih]
    · obtain ⟨s, ss, hss⟩ : ∃ s ss, splitOnChar sep rest = s :: ss := by
        cases h : splitOnChar sep rest with
        | nil => exact absurd h (splitOnChar_ne_nil _ _)
        | cons s ss => exact ⟨s, ss, rfl⟩
      simp only [List.cons_append, splitOnChar, if_neg hc, List.append_eq, ih, hss,
        consHead]

/-- Scanning `text` followed by a final newline flushes every segment of
the pending line extended by `text`, translating each line's matches by
the offsets accumulated so far. -/
theorem foldl_stepChar_flush (regex : Regex) :
    ∀ (text : List Char) (m : List (Nat × Nat)) (l : List Char) (o : Nat),
      l.contains '\n' = false →
      (text ++ ['\n']).foldl (stepChar regex) ⟨m, l, o⟩ =
        ⟨m ++ lineMatchesFrom regex (splitOnChar '\n' (l ++ text)) o, [],
          o + l.length + text.length + 1⟩ := by
  intro text
  induction text with
  | nil =>
    intro m l o hl
    simp only [List.nil_append, List.foldl_cons, List.foldl_nil]
    have hstep : stepChar regex ⟨m, l, o⟩ '\n' = flushLine regex ⟨m, l, o⟩ := by
      simp [stepChar]
    rw [hstep, List.append_nil, splitOnChar_not_mem '\n' l hl]
    simp [flushLine, lineMatchesFrom]
  | cons c rest ih =>
    intro m l o hl
    by_cases hc : c = '\n'
    · subst hc
      simp only [List.cons_append, List.foldl_cons]
      have hstep : stepChar regex ⟨m, l, o⟩ '\n' = flushLine regex ⟨m, l, o⟩ := by
        simp [stepChar]
      rw [hstep]
      have hfl : flushLine regex ⟨m, l, o⟩ =
          ⟨m ++ (regex.findIter l).map (fun mat => (o + mat.1, o + mat.2)), [],
            o + l.length + 1⟩ := rfl
      rw [hfl, ih _ [] _ rfl, splitOnChar_append_cons '\n' l rest hl]
      simp only [List.nil_append, lineMatchesFrom, ScanState.mk.injEq, List.length_nil,
        List.length_cons, List.append_assoc]
      refine ⟨trivial, trivial, by omega⟩
    · simp only [List.cons_append, List.foldl_cons]
      have hstep : stepChar regex ⟨m, l, o⟩ c = pushSeg ⟨m, l, o⟩ [c] := by
        simp [stepChar, hc]
      rw [hstep]
      have hpush : pushSeg (⟨m, l, o⟩ : ScanState) [c] = ⟨m, l ++ [c], o⟩ := rfl
      have hlc : (l ++ [c]).contains '\n' = false := by
        rw [contains_append_char, hl]
        simp [List.contains_cons]
        intro he
        exact hc he.symm
      rw [hpush, ih m (l ++ [c]) o hlc]
      have hassoc : (l ++ [c]) ++ rest = l ++ c :: rest := by simp
      rw [hassoc]
      simp only [ScanState.mk.injEq, List.length_append, List.length_cons,
        List.length_nil]
      refine ⟨trivial, trivial, by omega⟩

/-- The single-line regex arm computes the per-line matches of the
concatenated text, each translated by the cumulative byte length of all
previously flushed lines plus their newline separators. -/
theorem searchRegexSingleline_eq_lineMatches (regex : Regex) (chunks : List (List Char)) :
    searchRegexSingleline regex chunks =
      lineMatchesFrom regex (splitOnChar '\n' chunks.flatten) 0 := by
  unfold searchRegexSingleline
  rw [foldl_processChunk_flatten]
  have h1 : (chunks ++ [['\n']]).flatten = chunks.flatten ++ ['\n'] := by simp
  rw [h1, processChunk_eq_foldl, foldl_stepChar_flush regex chunks.flatten [] [] 0 rfl]
  simp

/-- `search` on a non-multiline regex query, for a non-empty stored
query string, computes the per-line matches of the rope's full text. -/
theorem search_regex_singleline (r : Regex) (ww cs : Bool) (inner : SearchInputs)
    (hne : inner.query ≠ []) (rope : Rope) :
    (SearchQuery.Regex r false ww cs inner).search rope =
      lineMatchesFrom r (splitOnChar '\n' (List.flatten rope)) 0 := by
  unfold SearchQuery.search
  rw [if_neg (by simp [SearchQuery.as_str, SearchQuery.as_inner,
    SearchInputs.as_str, hne])]
  exact searchRegexSingleline_eq_lineMatches r rope

/-- Claim C1: for a non-empty single-line regex query, `search` yields
the same match ranges for every chunking of the same text — in
particular the same ranges as the single-chunk buffer — and those ranges
are the per-line matches translated by the cumulative length of all
previously flushed lines plus their newline separators. -/
theorem c1_chunk_splitting_invariance (r : Regex) (ww cs : Bool)
    (inner : SearchInputs) (hne : inner.query ≠ []) (chunks : List (List Char)) :
    (SearchQuery.Regex r false ww cs inner).search chunks =
      (SearchQuery.Regex r false ww cs inner).search [List.flatten chunks] ∧
    (SearchQuery.Regex r false ww cs inner).search chunks =
      lineMatchesFrom r (splitOnChar '\n' (List.flatten chunks)) 0 := by
  constructor
  · rw [search_regex_singleline r ww cs inner hne chunks,
      search_regex_singleline r ww cs inner hne [List.flatten chunks]]
    simp
  · exact search_regex_singleline r ww cs inner hne chunks

/-- Witness for C1: a two-chunk buffer with a mid-line split agrees with
its single-chunk form, and the per-line offsets evaluate concretely. -/
theorem c1_chunk_splitting_invariance_witness :
    ((SearchQuery.Regex ⟨fun s => if s = ['a'] then [(0, 1)] else []⟩ false false false
        ⟨['a'], [], []⟩).search [['a', 'b', '\n'], ['a']] =
      (SearchQuery.Regex ⟨fun s => if s = ['a'] then [(0, 1)] else []⟩ false false false
        ⟨['a'], [], []⟩).search [List.flatten [['a', 'b', '\n'], ['a']]] ∧
    (SearchQuery.Regex ⟨fun s => if s = ['a'] then [(0, 1)] else []⟩ false false false
        ⟨['a'], [], []⟩).search [['a', 'b', '\n'], ['a']] =
      lineMatchesFrom ⟨fun s => if s = ['a'] then [(0, 1)] else []⟩
        (splitOnChar '\n' (List.flatten [['a', 'b', '\n'], ['a']])) 0) ∧
    lineMatchesFrom ⟨fun s => if s = ['a'] then [(0, 1)] else []⟩
        (splitOnChar '\n' (List.flatten [['a', 'b', '\n'], ['a']])) 0 = [(3, 4)] :=
  ⟨c1_chunk_splitting_invariance _ false false ⟨['a'], [], []⟩ (by decide) _, by decide⟩

/-- Per-line matches split across a concatenation, translating the tail
by the accumulated line lengths plus separators. -/
theorem lineMatchesFrom_append (regex : Regex) (a b : List (List Char)) :
    ∀ off, lineMatchesFrom regex (a ++ b) off =
      lineMatchesFrom regex a off ++
        lineMatchesFrom regex b (off + (a.map (fun l => l.length + 1)).sum) := by
  induction a with
  | nil => intro off; simp [lineMatchesFrom]
  | cons l ls ih =>
    intro off
    simp only [List.cons_append, lineMatchesFrom, List.map_cons, List.sum_cons,
      List.append_eq]
    rw [ih]
    rw [show off + l.length + 1 + ((ls.map fun l => l.length + 1)).sum =
      off + (l.length + 1 + ((ls.map fun l => l.length + 1)).sum) from by omega]
    simp [List.append_assoc]

/-- The segments of a split, with one separator charged to each, sum to
the text's length plus one. -/
theorem sum_splitOnChar_lens (sep : Char) (t : List Char) :
    ((splitOnChar sep t).map (fun l => l.length + 1)).sum = t.length + 1 := by
  induction t with
  | nil => rfl
  | cons c rest ih =>
    by_cases hc : c = sep
    · subst hc
      simp only [splitOnChar, eq_self_iff_true, if_true, List.map_cons, List.sum_cons,
        List.length_nil, List.length_cons]
      rw [ih]
      omega
    · obtain ⟨s, ss, hss⟩ : ∃ s ss, splitOnChar sep rest = s :: ss := by
        cases h : splitOnChar sep rest with
        | nil => exact absurd h (splitOnChar_ne_nil _ _)
        | cons s ss => exact ⟨s, ss, rfl⟩
      have ih2 := ih
      rw [hss] at ih2
      simp only [List.map_cons, List.sum_cons] at ih2
      simp only [splitOnChar, if_neg hc, hss, consHead, List.map_cons, List.sum_cons,
        List.length_cons]
      omega

/-- Claim C10: in single-line mode, a buffer ending in a newline scanned
with a regex that matches the empty string reports, as its final range,
the empty range at the buffer's total length — the synthetic trailing
newline chunk makes the scan evaluate one empty final line past the
document's last newline. -/
theorem c10_synthetic_trailing_newline (r : Regex) (ww cs : Bool)
    (inner : SearchInputs) (chunks : List (List Char))
    (hne : inner.query ≠ []) (hnn : List.flatten chunks ≠ [])
    (hlast : (List.flatten chunks).getLast? = some '\n')
    (hfi : r.findIter [] = [(0, 0)]) :
    ((SearchQuery.Regex r false ww cs inner).search chunks).getLast? =
      some ((List.flatten chunks).length, (List.flatten chunks).length) := by
  obtain ⟨t0, ht⟩ : ∃ t0, List.flatten chunks = t0 ++ ['\n'] := by
    refine ⟨(List.flatten chunks).dropLast, ?_⟩
    have h1 := List.dropLast_append_getLast hnn
    have h2 : (List.flatten chunks).getLast hnn = '\n' := by
      have h3 := List.getLast?_eq_getLast (List.flatten chunks) hnn
      rw [h3] at hlast
      exact Option.some.inj hlast
    rw [← h2]
    exact h1.symm
  rw [search_regex_singleline r ww cs inner hne chunks, ht,
    splitOnChar_concat_sep, lineMatchesFrom_append, sum_splitOnChar_lens]
  have hl : lineMatchesFrom r [[]] (0 + (t0.length + 1)) =
      [(t0.length + 1, t0.length + 1)] := by
    simp [lineMatchesFrom, hfi]
  rw [hl, List.getLast?_concat]
  simp

/-- Witness for C10 at a one-chunk buffer `"a\n"` and a regex matching
the empty string everywhere. -/
theorem c10_synthetic_trailing_newline_witness :
    ((SearchQuery.Regex ⟨fun _ => [(0, 0)]⟩ false false false
        ⟨['z'], [], []⟩).search [['a', '\n']]).getLast? = some (2, 2) :=
  c10_synthetic_trailing_newline ⟨fun _ => [(0, 0)]⟩ false false ⟨['z'], [], []⟩
    [['a', '\n']] (by decide) (by decide) (by decide) rfl

/-! ## Wire round-trip -/

/-- A matcher as the query compiler produces it: its stored pattern
recompiles to it, and the pattern survives the wire encoding unchanged
(no comma, no surrounding whitespace, non-empty). -/
def wfMatcher (m : PathMatcher) : Prop :=
  PathMatcher.new m.maybe_path = some m ∧ m.maybe_path.contains ',' = false ∧
    trimStr m.maybe_path = m.maybe_path ∧ m.maybe_path ≠ []

/-- Splitting a comma-join of comma-free parts recovers the parts. -/
theorem splitOnChar_joinSep (sep : Char) (xs : List (List Char)) (hne : xs ≠ [])
    (h : ∀ x ∈ xs, x.contains sep = false) :
    splitOnChar sep (joinSep sep xs) = xs := by
  induction xs with
  | nil => exact absurd rfl hne
  | cons x ys ih =>
    cases ys with
    | nil =>
      simp only [joinSep]
      exact splitOnChar_not_mem sep x (h x (by simp))
    | cons y rest =>
      simp only [joinSep]
      rw [splitOnChar_append_cons sep x _ (h x (by simp)),
        ih (by simp) (fun z hz => h z (by simp [hz]))]

/-- Trimming then dropping empties is the identity on already-clean
parts. -/
theorem map_trim_filter_id (l : List (List Char))
    (h : ∀ p ∈ l, trimStr p = p ∧ p ≠ []) :
    (l.map trimStr).filter (fun g => !g.isEmpty) = l := by
  induction l with
  | nil => rfl
  | cons p ps ih =>
    simp only [List.map_cons, List.filter_cons]
    rw [(h p (by simp)).1]
    have hne := (h p (by simp)).2
    have hε : p.isEmpty = false := by
      cases p with
      | nil => exact absurd rfl hne
      | cons a as => rfl
    simp only [hε, Bool.not_false, if_pos]
    rw [ih (fun q hq => h q (by simp [hq]))]

/-- Compiling the stored patterns of well-formed matchers reproduces the
matchers. -/
theorem buildPathMatchers_map_new (ms : List PathMatcher)
    (h : ∀ m ∈ ms, PathMatcher.new m.maybe_path = some m) :
    buildPathMatchers (ms.map fun m => m.maybe_path) = .ok ms := by
  induction ms with
  | nil => rfl
  | cons m ms ih =>
    simp only [List.map_cons, buildPathMatchers]
    rw [h m (by simp)]
    dsimp only
    rw [ih (fun x hx => h x (by simp [hx]))]
    rfl

/-- Deserializing the comma-join of well-formed matchers' patterns
reproduces the matcher list. -/
theorem deserialize_roundtrip (ms : List PathMatcher)
    (h : ∀ m ∈ ms, wfMatcher m) :
    deserialize_path_matches (joinSep ',' (ms.map fun m => m.maybe_path)) = .ok ms := by
  unfold deserialize_path_matches
  cases ms with
  | nil => rfl
  | cons m rest =>
    rw [splitOnChar_joinSep ',' _ (by simp)
      (by
        intro x hx
        obtain ⟨m2, hm2, rfl⟩ := List.mem_map.mp hx
        exact (h m2 hm2).2.1),
      map_trim_filter_id _
      (by
        intro x hx
        obtain ⟨m2, hm2, rfl⟩ := List.mem_map.mp hx
        exact ⟨(h m2 hm2).2.2.1, (h m2 hm2).2.2.2⟩)]
    exact buildPathMatchers_map_new _ (fun m2 hm2 => (h m2 hm2).1)

/-- When some cleaned segment is an invalid glob, `buildPathMatchers`
fails and its error names an invalid segment of the list. -/
theorem buildPathMatchers_first_bad (gs : List (List Char))
    (h : ∃ g ∈ gs, PathMatcher.new g = none) :
    ∃ g ∈ gs, buildPathMatchers gs = .error g ∧ PathMatcher.new g = none := by
  induction gs with
  | nil => simp at h
  | cons g rest ih =>
    cases hg : PathMatcher.new g with
    | none =>
      refine ⟨g, by simp, ?_, hg⟩
      simp only [buildPathMatchers]
      rw [hg]
    | some m =>
      obtain ⟨b, hb, hbn⟩ := h
      have hbrest : b ∈ rest := by
        cases List.mem_cons.mp hb with
        | inl he =>
          subst he
          rw [hg] at hbn
          exact Option.noConfusion hbn
        | inr hr => exact hr
      obtain ⟨g2, hg2, herr, hn2⟩ := ih ⟨b, hbrest, hbn⟩
      refine ⟨g2, by simp [hg2], ?_, hn2⟩
      simp only [buildPathMatchers]
      rw [hg]
      dsimp only
      rw [herr]
      rfl

/-- Claim C8: a compiled query converted to the wire form and
deserialized with the same regex compiler comes back equal — same query
string, mode, flags, and the same matcher lists, whose patterns
(trimmed, comma-free, non-empty) survive the comma-join encoding
position by position; and deserialization fails naming an offending
segment whenever some cleaned segment is not a valid glob. -/
theorem c8_proto_roundtrip :
    (∀ (compile : RegexCompiler) (project_id : Nat) (q : SearchQuery),
      (∀ m ∈ q.files_to_include, wfMatcher m) →
      (∀ m ∈ q.files_to_exclude, wfMatcher m) →
      ((∃ q0 ww cs inc exc, q = SearchQuery.text q0 ww cs inc exc) ∨
        (∃ q0 ww cs inc exc,
          SearchQuery.regex compile q0 ww cs inc exc = some q)) →
      SearchQuery.from_proto compile (q.to_proto project_id) = .ok q) ∧
    (∀ glob_set : List Char,
      (∃ g ∈ ((splitOnChar ',' glob_set).map trimStr).filter (fun g => !g.isEmpty),
        PathMatcher.new g = none) →
      ∃ g ∈ ((splitOnChar ',' glob_set).map trimStr).filter (fun g => !g.isEmpty),
        deserialize_path_matches glob_set = .error g ∧ PathMatcher.new g = none) := by
  constructor
  · intro compile pid q hinc hexc hbuilt
    cases hbuilt with
    | inl htext =>
      obtain ⟨q0, ww, cs, inc, exc, rfl⟩ := htext
      unfold SearchQuery.from_proto SearchQuery.to_proto
      dsimp only [SearchQuery.text, SearchQuery.files_to_include,
        SearchQuery.files_to_exclude, SearchQuery.as_inner,
        SearchInputs.files_to_include, SearchInputs.files_to_exclude,
        SearchQuery.as_str, SearchInputs.as_str, SearchQuery.is_regex,
        SearchQuery.whole_word, SearchQuery.case_sensitive]
      rw [deserialize_roundtrip inc hinc]
      dsimp only
      rw [deserialize_roundtrip exc hexc]
      dsimp only
      rfl
    | inr hregex =>
      obtain ⟨q0, ww, cs, inc, exc, hq⟩ := hregex
      have hq0 := hq
      simp only [SearchQuery.regex] at hq
      split at hq
      · exact Option.noConfusion hq
      · obtain rfl := Option.some.inj hq
        unfold SearchQuery.from_proto SearchQuery.to_proto
        dsimp only [SearchQuery.files_to_include, SearchQuery.files_to_exclude,
          SearchQuery.as_inner, SearchInputs.files_to_include,
          SearchInputs.files_to_exclude, SearchQuery.as_str, SearchInputs.as_str,
          SearchQuery.is_regex, SearchQuery.whole_word, SearchQuery.case_sensitive]
        rw [deserialize_roundtrip inc hinc]
        dsimp only
        rw [deserialize_roundtrip exc hexc]
        dsimp only
        rw [if_pos rfl, hq0]
  · intro glob_set hbad
    obtain ⟨g, hg, herr, hn⟩ := buildPathMatchers_first_bad _ hbad
    exact ⟨g, hg, by unfold deserialize_path_matches; exact herr, hn⟩

/-- Witness for C8 at a concrete text query with one include matcher. -/
theorem c8_proto_roundtrip_witness :
    SearchQuery.from_proto (fun _ _ _ => none)
        ((SearchQuery.text ['q'] false false
            [{ maybe_path := "src".toList, glob := [.lit 's', .lit 'r', .lit 'c'] }]
            []).to_proto 7) =
      .ok (SearchQuery.text ['q'] false false
        [{ maybe_path := "src".toList, glob := [.lit 's', .lit 'r', .lit 'c'] }]
        []) :=
  c8_proto_roundtrip.1 (fun _ _ _ => none) 7 _
    (by
      intro m hm
      have hm2 : m =
          { maybe_path := "src".toList,
            glob := [GlobToken.lit 's', GlobToken.lit 'r', GlobToken.lit 'c'] } := by
        simpa [SearchQuery.text, SearchQuery.files_to_include, SearchQuery.as_inner,
          SearchInputs.files_to_include] using hm
      subst hm2
      exact ⟨by decide, by decide, by decide, by decide⟩)
    (by
      intro m hm
      exact absurd hm (List.not_mem_nil m))
    (Or.inl ⟨['q'], false, false, _, _, rfl⟩)

/-- Witness for C2 at the spec's example filters: include `*.rs`,
exclude `target/*`; the excluded path is rejected, the plain source path
accepted, and a missing path is rejected because the include list is
non-empty. -/
theorem c2_file_matches_witness :
    ((SearchQuery.text ['x'] false false
          [{ maybe_path := "*.rs".toList,
             glob := [.anySeq, .lit '.', .lit 'r', .lit 's'] }]
          [{ maybe_path := "target/*".toList,
             glob := [.lit 't', .lit 'a', .lit 'r', .lit 'g', .lit 'e', .lit 't',
               .lit '/', .anySeq] }]).file_matches
        (some ("target/debug/x.rs".toList)) = true ↔
      ((∀ m ∈ (SearchQuery.text ['x'] false false
          [{ maybe_path := "*.rs".toList,
             glob := [.anySeq, .lit '.', .lit 'r', .lit 's'] }]
          [{ maybe_path := "target/*".toList,
             glob := [.lit 't', .lit 'a', .lit 'r', .lit 'g', .lit 'e', .lit 't',
               .lit '/', .anySeq] }]).files_to_exclude,
          m.is_match ("target/debug/x.rs".toList) = false) ∧
        ((SearchQuery.text ['x'] false false
          [{ maybe_path := "*.rs".toList,
             glob := [.anySeq, .lit '.', .lit 'r', .lit 's'] }]
          [{ maybe_path := "target/*".toList,
             glob := [.lit 't', .lit 'a', .lit 'r', .lit 'g', .lit 'e', .lit 't',
               .lit '/', .anySeq] }]).files_to_include = [] ∨
          ∃ m ∈ (SearchQuery.text ['x'] false false
            [{ maybe_path := "*.rs".toList,
               glob := [.anySeq, .lit '.', .lit 'r', .lit 's'] }]
            [{ maybe_path := "target/*".toList,
               glob := [.lit 't', .lit 'a', .lit 'r', .lit 'g', .lit 'e', .lit 't',
                 .lit '/', .anySeq] }]).files_to_include,
            m.is_match ("target/debug/x.rs".toList) = true))) ∧
    (SearchQuery.text ['x'] false false
        [{ maybe_path := "*.rs".toList,
           glob := [.anySeq, .lit '.', .lit 'r', .lit 's'] }]
        [{ maybe_path := "target/*".toList,
           glob := [.lit 't', .lit 'a', .lit 'r', .lit 'g', .lit 'e', .lit 't',
             .lit '/', .anySeq] }]).file_matches
      (some ("target/debug/x.rs".toList)) = false ∧
    (SearchQuery.text ['x'] false false
        [{ maybe_path := "*.rs".toList,
           glob := [.anySeq, .lit '.', .lit 'r', .lit 's'] }]
        [{ maybe_path := "target/*".toList,
           glob := [.lit 't', .lit 'a', .lit 'r', .lit 'g', .lit 'e', .lit 't',
             .lit '/', .anySeq] }]).file_matches
      (some ("src/x.rs".toList)) = true ∧
    (SearchQuery.text ['x'] false false
        [{ maybe_path := "*.rs".toList,
           glob := [.anySeq, .lit '.', .lit 'r', .lit 's'] }]
        [{ maybe_path := "target/*".toList,
           glob := [.lit 't', .lit 'a', .lit 'r', .lit 'g', .lit 'e', .lit 't',
             .lit '/', .anySeq] }]).file_matches none = false :=
  ⟨(c2_file_matches _ ("target/debug/x.rs".toList)).1, by decide, by decide, by decide⟩
